import Mathlib

/-!
Verification of the transaction-history screen of the warung-order-app
repository (`src/app/(tabs)/history.tsx`).

The screen's pure logic — grouping transactions by local calendar date,
sorting the date keys newest-first, the receipt-confirmation state update,
the load routine's error handling, and the tap-to-navigate handler — is
embedded below as executable Lean definitions, and the spec's properties
are proved about them.
-/

namespace WarungHistory

/-- Modelled from the spec: one line item of a transaction (name, quantity,
price); the `Transaction` record type lives in `data/mockData`, outside the
given sources, so its shape is taken from the spec's data model and from the
fields this screen reads. -/
structure CartItem where
  name : String
  quantity : Int
  price : Int
deriving DecidableEq

/-- Modelled from the spec: a recorded purchase transaction — identifier,
date string, total amount, line items, goods-receipt flag, confirmed-total
field, and an optional loan identifier. -/
structure Transaction where
  transaction_id : String
  date : String
  total : Int
  items : List CartItem
  has_good_receipt : Bool
  good_receipt_total : Int
  loan_id : Option String
deriving DecidableEq

/-- Modelled from the spec: the storage collaborator's
`saveTransaction(Transaction) → void` upserts one transaction: the stored
record with the same identifier is replaced, and a record with a fresh
identifier is appended. -/
def saveTransaction (store : List Transaction) (t : Transaction) : List Transaction :=
  match store with
  | [] => [t]
  | s :: rest =>
      if s.transaction_id = t.transaction_id then t :: rest
      else s :: saveTransaction rest t

/-- Modelled from the spec: the storage collaborator's
`getTransactions() → list<Transaction>` reads the full stored list. -/
def getTransactions (store : List Transaction) : List Transaction :=
  store

/-- The view's local component state: the transaction list and the loading
flag (`useState` in the source). -/
structure ViewState where
  transactions : List Transaction
  loading : Bool
deriving DecidableEq

/-- Outcome of one run of `loadTransactions`: the new view state plus
whether an error was logged and whether any error UI was shown. -/
structure LoadResult where
  view : ViewState
  errorLogged : Bool
  errorAlertShown : Bool
deriving DecidableEq

/-- `loadTransactions` from the source: on a successful storage read the
fetched list replaces local state; on failure the error is logged and the
list is not touched; in both cases (the `finally` block) loading is
cleared.  The storage read's outcome is passed in explicitly. -/
def loadTransactions (v : ViewState) (fetch : Except Unit (List Transaction)) : LoadResult :=
  match fetch with
  | Except.ok stored =>
      { view := { transactions := stored, loading := false },
        errorLogged := false, errorAlertShown := false }
  | Except.error _ =>
      { view := { transactions := v.transactions, loading := false },
        errorLogged := true, errorAlertShown := false }

/-- A navigation request issued to the router. -/
inductive NavAction where
  | push (route : String)
deriving DecidableEq

/-- `handleTransactionTap` from the source: pushes the order-detail route
with the transaction's identifier in the query string. -/
def handleTransactionTap (t : Transaction) : NavAction :=
  NavAction.push (String.append "/order-detail?transactionId=" t.transaction_id)

/-- The path part of a route URL: everything before the first question mark. -/
def routePath (url : String) : String :=
  String.mk (url.data.takeWhile (fun c => decide (c ≠ '?')))

/-- The query part of a route URL: everything after the first question mark. -/
def routeQuery (url : String) : String :=
  String.mk ((url.data.dropWhile (fun c => decide (c ≠ '?'))).drop 1)

/-- The combined state the confirmation flow acts on: the persisted store
and the view's local state. -/
structure World where
  store : List Transaction
  view : ViewState
deriving DecidableEq

/-- How one run of the confirmation prompt resolves: the user cancels, or
confirms and the save succeeds, or confirms and the save step throws. -/
inductive ConfirmOutcome where
  | cancel
  | saveOk
  | saveFail
deriving DecidableEq

/-- Outcome of one run of `handleReceiptConfirm`: the new world plus which
prompts/alerts were shown, whether an error was logged, and whether a save
was issued to storage. -/
structure ConfirmResult where
  world : World
  promptShown : Bool
  errorLogged : Bool
  errorAlertShown : Bool
  successAlertShown : Bool
  saveIssued : Bool
deriving DecidableEq

/-- The updated record built inside the confirm handler: the original
transaction with the receipt flag set and the total copied into the
confirmed-total field (`updatedTransaction` in the source). -/
def updatedTransaction (t : Transaction) : Transaction :=
  { t with has_good_receipt := true, good_receipt_total := t.total }

/-- `handleReceiptConfirm` from the source.  An already-confirmed
transaction returns immediately before the prompt.  Otherwise the prompt is
shown and, per the outcome: cancel leaves everything unchanged; a
successful save writes `updatedTransaction t` to the store, reloads the
list, and shows the success alert; a failing save logs the error and shows
the generic error alert, leaving both store and view untouched. -/
def handleReceiptConfirm (w : World) (t : Transaction) (o : ConfirmOutcome) : ConfirmResult :=
  if t.has_good_receipt then
    { world := w, promptShown := false, errorLogged := false, errorAlertShown := false,
      successAlertShown := false, saveIssued := false }
  else
    match o with
    | ConfirmOutcome.cancel =>
        { world := w, promptShown := true, errorLogged := false, errorAlertShown := false,
          successAlertShown := false, saveIssued := false }
    | ConfirmOutcome.saveFail =>
        { world := w, promptShown := true, errorLogged := true, errorAlertShown := true,
          successAlertShown := false, saveIssued := true }
    | ConfirmOutcome.saveOk =>
        let store2 := saveTransaction w.store (updatedTransaction t)
        let reload := loadTransactions w.view (Except.ok (getTransactions store2))
        { world := { store := store2, view := reload.view }, promptShown := true,
          errorLogged := false, errorAlertShown := false,
          successAlertShown := true, saveIssued := true }

/-- An event of the view's behaviour: a (succeeding or failing) load, a tap
on a transaction row, or a run of the receipt-confirmation flow. -/
inductive Event where
  | load (ok : Bool)
  | tap (t : Transaction)
  | confirm (t : Transaction) (o : ConfirmOutcome)
deriving DecidableEq

/-- One step of the view's behaviour on the combined store/view state. -/
def step (w : World) (e : Event) : World :=
  match e with
  | Event.load true =>
      { store := w.store, view := (loadTransactions w.view (Except.ok (getTransactions w.store))).view }
  | Event.load false =>
      { store := w.store, view := (loadTransactions w.view (Except.error ())).view }
  | Event.tap _ => w
  | Event.confirm t o => (handleReceiptConfirm w t o).world

/-- Modelled from the spec: the grouping key
`new Date(transaction.date).toLocaleDateString('en-CA')` is the
transaction's local calendar date in `YYYY-MM-DD` form; the JS `Date`
runtime is external to the sources, so it is modelled as the ten-character
date prefix of the ISO date string. -/
def localDateKey (s : String) : String :=
  String.mk (s.data.take 10)

/-- Insert one transaction under the given date key, preserving key
insertion order — the association-list embedding of
`if (!groups[date]) groups[date] = []; groups[date].push(transaction)`
on a JS object with string keys. -/
def addToGroups (groups : List (String × List Transaction)) (d : String) (t : Transaction) :
    List (String × List Transaction) :=
  match groups with
  | [] => [(d, [t])]
  | g :: gs =>
      if g.1 = d then (g.1, g.2 ++ [t]) :: gs
      else g :: addToGroups gs d t

/-- `groupedTransactions` from the source: the reduce over the transaction
list that groups transactions by their local calendar date. -/
def groupedTransactions (ts : List Transaction) : List (String × List Transaction) :=
  ts.foldl (fun gs t => addToGroups gs (localDateKey t.date) t) []

/-- The list stored under a date key (empty if the key is absent). -/
def groupsGet (groups : List (String × List Transaction)) (d : String) : List Transaction :=
  match groups with
  | [] => []
  | g :: gs => if g.1 = d then g.2 else groupsGet gs d

/-- The date keys of the grouping, in insertion order
(`Object.keys(groupedTransactions)` in the source). -/
def groupKeys (groups : List (String × List Transaction)) : List String :=
  groups.map Prod.fst

/-- The numeric value of a digit character. -/
def digitVal (c : Char) : Nat :=
  c.toNat - 48

/-- A well-formed `YYYY-MM-DD` date key: ten characters, digits in the
year/month/day positions and hyphens between them. -/
def validDateKey (s : String) : Bool :=
  match s.data with
  | [y1, y2, y3, y4, h1, m1, m2, h2, d1, d2] =>
      y1.isDigit && y2.isDigit && y3.isDigit && y4.isDigit && (h1 == '-') &&
      m1.isDigit && m2.isDigit && (h2 == '-') && d1.isDigit && d2.isDigit
  | _ => false

/-- Modelled from the spec: `new Date(key + 'T00:00:00').getTime()` on a
`YYYY-MM-DD` key is strictly monotone in the calendar date; the JS `Date`
runtime is external to the sources, so the timestamp is modelled by the
eight-digit number `YYYYMMDD` read off the key. -/
def dateTimeValue (s : String) : Nat :=
  match s.data with
  | [y1, y2, y3, y4, _, m1, m2, _, d1, d2] =>
      digitVal y1 * 10000000 + digitVal y2 * 1000000 + digitVal y3 * 100000 +
      digitVal y4 * 10000 + digitVal m1 * 1000 + digitVal m2 * 100 +
      digitVal d1 * 10 + digitVal d2
  | _ => 0

/-- The sort order of `sortedDates` in the source: the comparator
`(a, b) => new Date(b + 'T00:00:00').getTime() - new Date(a + 'T00:00:00').getTime()`
puts `a` no later than `b` exactly when `b`'s timestamp is at most `a`'s. -/
def dateDesc (a b : String) : Prop :=
  dateTimeValue b ≤ dateTimeValue a

instance : DecidableRel dateDesc :=
  fun a b => Nat.decLe (dateTimeValue b) (dateTimeValue a)

instance : IsTotal String dateDesc :=
  ⟨fun a b => (Nat.le_total (dateTimeValue a) (dateTimeValue b)).symm⟩

instance : IsTrans String dateDesc :=
  ⟨fun _ _ _ hab hbc => Nat.le_trans hbc hab⟩

/-- `sortedDates` from the source: the grouping's date keys sorted in
descending chronological order. -/
def sortedDates (ts : List Transaction) : List String :=
  List.insertionSort dateDesc (groupKeys (groupedTransactions ts))

/-- A sample line item used in the concrete witnesses. -/
def sampleItem : CartItem :=
  { name := "Beras 5kg", quantity := 2, price := 25000 }

/-- Sample unconfirmed transaction dated 2024-01-01. -/
def tx1 : Transaction :=
  { transaction_id := "TX1", date := "2024-01-01T09:00:00", total := 50000,
    items := [sampleItem], has_good_receipt := false, good_receipt_total := 0,
    loan_id := none }

/-- Sample unconfirmed transaction dated 2024-01-02. -/
def tx2 : Transaction :=
  { transaction_id := "TX2", date := "2024-01-02T09:00:00", total := 75000,
    items := [], has_good_receipt := false, good_receipt_total := 0,
    loan_id := some "LN1" }

/-- Sample unconfirmed transaction sharing tx1's calendar date. -/
def tx3 : Transaction :=
  { transaction_id := "TX3", date := "2024-01-01T15:30:00", total := 120000,
    items := [sampleItem], has_good_receipt := false, good_receipt_total := 0,
    loan_id := none }

/-- Sample already-confirmed transaction. -/
def tx4 : Transaction :=
  { transaction_id := "TX4", date := "2024-02-10T08:00:00", total := 80000,
    items := [], has_good_receipt := true, good_receipt_total := 80000,
    loan_id := none }

/-- Evaluating `addToGroups` at an arbitrary key: inserting under key `d`
appends the transaction to the `d` group and leaves every other group
untouched. -/
theorem groupsGet_addToGroups (gs : List (String × List Transaction)) (d : String)
    (t : Transaction) (e : String) :
    groupsGet (addToGroups gs d t) e =
      if d = e then groupsGet gs e ++ [t] else groupsGet gs e := by
  induction gs with
  | nil =>
      by_cases h : d = e
      · subst h; simp [addToGroups, groupsGet]
      · simp [addToGroups, groupsGet, h]
  | cons g gs ih =>
      by_cases hg : g.1 = d
      · by_cases he : d = e
        · subst he; simp [addToGroups, groupsGet, hg]
        · have hne : ¬ g.1 = e := by rw [hg]; exact he
          simp [addToGroups, groupsGet, hg, hne, he]
      · by_cases hge : g.1 = e
        · have hde : ¬ d = e := fun h => hg (hge.trans h.symm)
          have hed : ¬ e = d := fun h => hde h.symm
          simp [addToGroups, groupsGet, hg, hge, hde, hed]
        · simp [addToGroups, groupsGet, hg, hge, ih]

/-- The fold underlying `groupedTransactions`, evaluated at an arbitrary
accumulator and key. -/
theorem groupsGet_foldl (ts : List Transaction) (gs : List (String × List Transaction))
    (e : String) :
    groupsGet (ts.foldl (fun acc t => addToGroups acc (localDateKey t.date) t) gs) e =
      groupsGet gs e ++ ts.filter (fun t => decide (localDateKey t.date = e)) := by
  induction ts generalizing gs with
  | nil => simp
  | cons t ts ih =>
      rw [List.foldl_cons, ih, groupsGet_addToGroups]
      by_cases h : localDateKey t.date = e
      · simp [h, List.filter_cons]
      · simp [h, List.filter_cons]

/-- Each date group of `groupedTransactions` holds exactly the input
transactions carrying that local calendar date, in input order. -/
theorem groupsGet_groupedTransactions (ts : List Transaction) (e : String) :
    groupsGet (groupedTransactions ts) e =
      ts.filter (fun t => decide (localDateKey t.date = e)) := by
  have h := groupsGet_foldl ts [] e
  simpa [groupedTransactions, groupsGet] using h

/-- Unfolding equation for `addToGroups` on a non-empty group list. -/
theorem addToGroups_cons (g : String × List Transaction) (gs : List (String × List Transaction))
    (d : String) (t : Transaction) :
    addToGroups (g :: gs) d t =
      if g.1 = d then (g.1, g.2 ++ [t]) :: gs else g :: addToGroups gs d t := rfl

/-- Unfolding equation for `groupKeys` on a non-empty group list. -/
theorem groupKeys_cons (g : String × List Transaction) (gs : List (String × List Transaction)) :
    groupKeys (g :: gs) = g.1 :: groupKeys gs := rfl

/-- Inserting under key `d` either leaves the key list alone (key already
present) or appends `d` at the end. -/
theorem groupKeys_addToGroups (gs : List (String × List Transaction)) (d : String)
    (t : Transaction) :
    groupKeys (addToGroups gs d t) =
      if d ∈ groupKeys gs then groupKeys gs else groupKeys gs ++ [d] := by
  induction gs with
  | nil => simp [addToGroups, groupKeys]
  | cons g gs ih =>
      rw [addToGroups_cons, groupKeys_cons]
      by_cases hg : g.1 = d
      · have hd : d ∈ g.1 :: groupKeys gs := hg ▸ List.mem_cons_self g.1 (groupKeys gs)
        rw [if_pos hg, if_pos hd]
        rfl
      · rw [if_neg hg, groupKeys_cons, ih]
        by_cases hm : d ∈ groupKeys gs
        · have hd : d ∈ g.1 :: groupKeys gs := List.mem_cons_of_mem _ hm
          rw [if_pos hm, if_pos hd]
        · have hd : d ∉ g.1 :: groupKeys gs := by
            intro h
            rcases List.mem_cons.mp h with h1 | h1
            · exact hg h1.symm
            · exact hm h1
          rw [if_neg hm, if_neg hd]
          rfl

/-- Insertion preserves distinctness of the date keys. -/
theorem groupKeys_addToGroups_nodup (gs : List (String × List Transaction)) (d : String)
    (t : Transaction) (h : (groupKeys gs).Nodup) :
    (groupKeys (addToGroups gs d t)).Nodup := by
  rw [groupKeys_addToGroups]
  by_cases hm : d ∈ groupKeys gs
  · simpa [hm] using h
  · simp [hm, List.nodup_append, h]

/-- The date keys of the grouping are pairwise distinct. -/
theorem groupKeys_nodup (ts : List Transaction) :
    (groupKeys (groupedTransactions ts)).Nodup := by
  have h : ∀ gs : List (String × List Transaction), (groupKeys gs).Nodup →
      (groupKeys (ts.foldl (fun acc t => addToGroups acc (localDateKey t.date) t) gs)).Nodup := by
    induction ts with
    | nil => intro gs h; simpa using h
    | cons t ts ih =>
        intro gs h
        rw [List.foldl_cons]
        exact ih _ (groupKeys_addToGroups_nodup _ _ _ h)
  exact h [] (by simp [groupKeys])

/-- Membership in the key list after one insertion. -/
theorem mem_groupKeys_addToGroups (gs : List (String × List Transaction)) (d : String)
    (t : Transaction) (e : String) :
    e ∈ groupKeys (addToGroups gs d t) ↔ e ∈ groupKeys gs ∨ e = d := by
  rw [groupKeys_addToGroups]
  by_cases hm : d ∈ groupKeys gs
  · simp only [hm, if_true]
    exact ⟨Or.inl, fun h => h.elim id (fun h2 => h2 ▸ hm)⟩
  · simp [hm, List.mem_append]

/-- A string is a key of the grouping exactly when it is the local calendar
date of some input transaction. -/
theorem mem_groupKeys_grouped (ts : List Transaction) (e : String) :
    e ∈ groupKeys (groupedTransactions ts) ↔ ∃ t ∈ ts, localDateKey t.date = e := by
  have h : ∀ gs : List (String × List Transaction),
      e ∈ groupKeys (ts.foldl (fun acc t => addToGroups acc (localDateKey t.date) t) gs) ↔
        e ∈ groupKeys gs ∨ ∃ t ∈ ts, localDateKey t.date = e := by
    induction ts with
    | nil => intro gs; simp
    | cons t ts ih =>
        intro gs
        rw [List.foldl_cons, ih, mem_groupKeys_addToGroups]
        constructor
        · rintro (⟨h1 | h1⟩ | ⟨t2, ht2, he⟩)
          · exact Or.inl h1
          · exact Or.inr ⟨t, List.mem_cons_self t ts, h1.symm⟩
          · exact Or.inr ⟨t2, List.mem_cons_of_mem t ht2, he⟩
        · rintro (h1 | ⟨t2, ht2, he⟩)
          · exact Or.inl (Or.inl h1)
          · rcases List.mem_cons.mp ht2 with h2 | h2
            · exact Or.inl (Or.inr (h2 ▸ he.symm))
            · exact Or.inr ⟨t2, h2, he⟩
  have h0 := h []
  simpa [groupKeys] using h0

/-- With distinct keys, looking up a member pair's key returns its list. -/
theorem groupsGet_of_mem (gs : List (String × List Transaction))
    (p : String × List Transaction) (hp : p ∈ gs) (hnd : (groupKeys gs).Nodup) :
    groupsGet gs p.1 = p.2 := by
  induction gs with
  | nil => cases hp
  | cons g gs ih =>
      have hnd2 : g.1 ∉ groupKeys gs ∧ (groupKeys gs).Nodup := by
        simpa [groupKeys, List.nodup_cons] using hnd
      rcases List.mem_cons.mp hp with h | h
      · subst h; simp [groupsGet]
      · have hp1 : p.1 ∈ groupKeys gs := List.mem_map_of_mem Prod.fst h
        have hne : ¬ g.1 = p.1 := fun hEq => hnd2.1 (hEq ▸ hp1)
        simp only [groupsGet, hne, if_false]
        exact ih h hnd2.2

/-- C1: for every list of transactions held in local state, the grouping
step partitions it — the date keys are pairwise distinct, the local
calendar date of every transaction is among them, and a transaction belongs
to a date group exactly when that group's key is the transaction's local
calendar date (so it appears in exactly one group, the one keyed by its
date). -/
theorem grouping_partition (ts : List Transaction) (t : Transaction) (ht : t ∈ ts) :
    (groupKeys (groupedTransactions ts)).Nodup ∧
    localDateKey t.date ∈ groupKeys (groupedTransactions ts) ∧
    ∀ p ∈ groupedTransactions ts, (t ∈ p.2 ↔ p.1 = localDateKey t.date) := by
  refine ⟨groupKeys_nodup ts, (mem_groupKeys_grouped ts _).mpr ⟨t, ht, rfl⟩, ?_⟩
  intro p hp
  have hget := groupsGet_of_mem _ p hp (groupKeys_nodup ts)
  rw [groupsGet_groupedTransactions] at hget
  constructor
  · intro htp
    have hmem : t ∈ ts.filter (fun x => decide (localDateKey x.date = p.1)) := hget ▸ htp
    have hdec := List.of_mem_filter hmem
    simp only [decide_eq_true_eq] at hdec
    exact hdec.symm
  · intro hpe
    have hmem : t ∈ ts.filter (fun x => decide (localDateKey x.date = p.1)) :=
      List.mem_filter.mpr ⟨ht, by simp [hpe]⟩
    exact hget ▸ hmem

/-- Witness for C1 on a concrete three-transaction list in which tx1 and
tx3 share the calendar date 2024-01-01. -/
theorem grouping_partition_witness :
    tx3 ∈ [tx1, tx2, tx3] ∧
    ((groupKeys (groupedTransactions [tx1, tx2, tx3])).Nodup ∧
     localDateKey tx3.date ∈ groupKeys (groupedTransactions [tx1, tx2, tx3]) ∧
     ∀ p ∈ groupedTransactions [tx1, tx2, tx3], (tx3 ∈ p.2 ↔ p.1 = localDateKey tx3.date)) :=
  ⟨by decide, grouping_partition [tx1, tx2, tx3] tx3 (by decide)⟩

/-- C10: grouping is order-stable — each date group is exactly the filter
of the fetched list by that group's date key, hence a sublist of it, so
transactions within a group keep the relative order they had in the fetched
list. -/
theorem grouping_stable (ts : List Transaction) (p : String × List Transaction)
    (hp : p ∈ groupedTransactions ts) :
    p.2 = ts.filter (fun x => decide (localDateKey x.date = p.1)) ∧ List.Sublist p.2 ts := by
  have hget := groupsGet_of_mem _ p hp (groupKeys_nodup ts)
  rw [groupsGet_groupedTransactions] at hget
  exact ⟨hget.symm, hget.symm ▸ List.filter_sublist ts⟩

/-- Witness for C10 on the same concrete list: the 2024-01-01 group lists
tx1 before tx3, their order in the input. -/
theorem grouping_stable_witness :
    ("2024-01-01", [tx1, tx3]) ∈ groupedTransactions [tx1, tx2, tx3] ∧
    [tx1, tx3] = [tx1, tx2, tx3].filter (fun x => decide (localDateKey x.date = "2024-01-01")) ∧
    List.Sublist [tx1, tx3] [tx1, tx2, tx3] :=
  ⟨by decide, grouping_stable [tx1, tx2, tx3] ("2024-01-01", [tx1, tx3]) (by decide)⟩

/-- Digit characters have code points between 48 and 57. -/
theorem isDigit_toNat {c : Char} (h : c.isDigit = true) : 48 ≤ c.toNat ∧ c.toNat ≤ 57 := by
  unfold Char.isDigit at h
  simp [Bool.and_eq_true] at h
  exact ⟨h.1, h.2⟩

/-- Characters with equal code points are equal. -/
theorem char_eq_of_toNat_eq {c d : Char} (h : c.toNat = d.toNat) : c = d := by
  apply Char.eq_of_val_eq
  apply UInt32.eq_of_val_eq
  apply Fin.ext
  exact h

/-- On well-formed `YYYY-MM-DD` keys the modelled timestamp determines the
key: two valid keys with the same timestamp are equal. -/
theorem dateTimeValue_inj {a b : String} (ha : validDateKey a = true)
    (hb : validDateKey b = true) (h : dateTimeValue a = dateTimeValue b) : a = b := by
  obtain ⟨la⟩ := a
  obtain ⟨lb⟩ := b
  rcases la with _ | ⟨a1, la⟩
  · simp [validDateKey] at ha
  rcases la with _ | ⟨a2, la⟩
  · simp [validDateKey] at ha
  rcases la with _ | ⟨a3, la⟩
  · simp [validDateKey] at ha
  rcases la with _ | ⟨a4, la⟩
  · simp [validDateKey] at ha
  rcases la with _ | ⟨a5, la⟩
  · simp [validDateKey] at ha
  rcases la with _ | ⟨a6, la⟩
  · simp [validDateKey] at ha
  rcases la with _ | ⟨a7, la⟩
  · simp [validDateKey] at ha
  rcases la with _ | ⟨a8, la⟩
  · simp [validDateKey] at ha
  rcases la with _ | ⟨a9, la⟩
  · simp [validDateKey] at ha
  rcases la with _ | ⟨a10, la⟩
  · simp [validDateKey] at ha
  rcases la with _ | ⟨aE, la⟩
  swap
  · simp [validDateKey] at ha
  rcases lb with _ | ⟨b1, lb⟩
  · simp [validDateKey] at hb
  rcases lb with _ | ⟨b2, lb⟩
  · simp [validDateKey] at hb
  rcases lb with _ | ⟨b3, lb⟩
  · simp [validDateKey] at hb
  rcases lb with _ | ⟨b4, lb⟩
  · simp [validDateKey] at hb
  rcases lb with _ | ⟨b5, lb⟩
  · simp [validDateKey] at hb
  rcases lb with _ | ⟨b6, lb⟩
  · simp [validDateKey] at hb
  rcases lb with _ | ⟨b7, lb⟩
  · simp [validDateKey] at hb
  rcases lb with _ | ⟨b8, lb⟩
  · simp [validDateKey] at hb
  rcases lb with _ | ⟨b9, lb⟩
  · simp [validDateKey] at hb
  rcases lb with _ | ⟨b10, lb⟩
  · simp [validDateKey] at hb
  rcases lb with _ | ⟨bE, lb⟩
  swap
  · simp [validDateKey] at hb
  simp only [validDateKey, Bool.and_eq_true, beq_iff_eq, and_assoc] at ha hb
  obtain ⟨hA1, hA2, hA3, hA4, hA5, hA6, hA7, hA8, hA9, hA10⟩ := ha
  obtain ⟨hB1, hB2, hB3, hB4, hB5, hB6, hB7, hB8, hB9, hB10⟩ := hb
  simp only [dateTimeValue, digitVal] at h
  have bA1 := isDigit_toNat hA1
  have bA2 := isDigit_toNat hA2
  have bA3 := isDigit_toNat hA3
  have bA4 := isDigit_toNat hA4
  have bA6 := isDigit_toNat hA6
  have bA7 := isDigit_toNat hA7
  have bA9 := isDigit_toNat hA9
  have bA10 := isDigit_toNat hA10
  have bB1 := isDigit_toNat hB1
  have bB2 := isDigit_toNat hB2
  have bB3 := isDigit_toNat hB3
  have bB4 := isDigit_toNat hB4
  have bB6 := isDigit_toNat hB6
  have bB7 := isDigit_toNat hB7
  have bB9 := isDigit_toNat hB9
  have bB10 := isDigit_toNat hB10
  have c1 : a1 = b1 := char_eq_of_toNat_eq (by omega)
  have c2 : a2 = b2 := char_eq_of_toNat_eq (by omega)
  have c3 : a3 = b3 := char_eq_of_toNat_eq (by omega)
  have c4 : a4 = b4 := char_eq_of_toNat_eq (by omega)
  have c6 : a6 = b6 := char_eq_of_toNat_eq (by omega)
  have c7 : a7 = b7 := char_eq_of_toNat_eq (by omega)
  have c9 : a9 = b9 := char_eq_of_toNat_eq (by omega)
  have c10 : a10 = b10 := char_eq_of_toNat_eq (by omega)
  subst c1 c2 c3 c4 c6 c7 c9 c10
  subst hA5 hA8 hB5 hB8
  rfl

/-- A sorted, duplicate-free list of well-formed date keys is strictly
descending in the modelled timestamp. -/
theorem pairwise_strict_of_sorted (l : List String) (hs : List.Pairwise dateDesc l)
    (hn : l.Nodup) (hv : ∀ e ∈ l, validDateKey e = true) :
    List.Pairwise (fun a b => dateTimeValue b < dateTimeValue a) l := by
  induction l with
  | nil => exact List.Pairwise.nil
  | cons a l ih =>
      rw [List.pairwise_cons] at hs
      rw [List.nodup_cons] at hn
      refine List.Pairwise.cons ?_ (ih hs.2 hn.2 (fun e he => hv e (List.mem_cons_of_mem a he)))
      intro b hb
      have hle : dateTimeValue b ≤ dateTimeValue a := hs.1 b hb
      have hne : dateTimeValue b ≠ dateTimeValue a := by
        intro hEq
        have hba : b = a :=
          dateTimeValue_inj (hv b (List.mem_cons_of_mem a hb)) (hv a (List.mem_cons_self a l)) hEq
        exact hn.1 (hba ▸ hb)
      exact lt_of_le_of_ne hle hne

/-- C2: for every list of transactions whose dates yield well-formed
`YYYY-MM-DD` keys, the date keys produced by the sorting step are in
strictly descending chronological order. -/
theorem sortedDates_strict_desc (ts : List Transaction)
    (hval : ∀ t ∈ ts, validDateKey (localDateKey t.date) = true) :
    List.Pairwise (fun a b => dateTimeValue b < dateTimeValue a) (sortedDates ts) := by
  have hsorted : List.Sorted dateDesc (sortedDates ts) :=
    List.sorted_insertionSort dateDesc (groupKeys (groupedTransactions ts))
  have hperm : List.Perm (sortedDates ts) (groupKeys (groupedTransactions ts)) :=
    List.perm_insertionSort dateDesc (groupKeys (groupedTransactions ts))
  have hnd : (sortedDates ts).Nodup := hperm.nodup_iff.mpr (groupKeys_nodup ts)
  have hv : ∀ e ∈ sortedDates ts, validDateKey e = true := by
    intro e he
    have he2 : e ∈ groupKeys (groupedTransactions ts) := hperm.mem_iff.mp he
    obtain ⟨t, ht, hkey⟩ := (mem_groupKeys_grouped ts e).mp he2
    exact hkey ▸ hval t ht
  exact pairwise_strict_of_sorted _ hsorted hnd hv

/-- Witness for C2: two transactions dated 2024-01-02 and 2024-01-01 render
as two sections with 2024-01-02 first. -/
theorem sortedDates_strict_desc_witness :
    (∀ t ∈ [tx1, tx2], validDateKey (localDateKey t.date) = true) ∧
    List.Pairwise (fun a b => dateTimeValue b < dateTimeValue a) (sortedDates [tx1, tx2]) ∧
    sortedDates [tx1, tx2] = ["2024-01-02", "2024-01-01"] :=
  ⟨by decide, sortedDates_strict_desc [tx1, tx2] (by decide), by decide⟩

/-- The identifiers of the stored transactions, in store order. -/
def storeIds (store : List Transaction) : List String :=
  store.map Transaction.transaction_id

/-- Unfolding equation for `saveTransaction` on a non-empty store. -/
theorem saveTransaction_cons (s : Transaction) (rest : List Transaction) (t : Transaction) :
    saveTransaction (s :: rest) t =
      if s.transaction_id = t.transaction_id then t :: rest
      else s :: saveTransaction rest t := rfl

/-- The updated record keeps the original identifier. -/
theorem updatedTransaction_id (t : Transaction) :
    (updatedTransaction t).transaction_id = t.transaction_id := rfl

/-- A pointwise replacement by an absent identifier changes nothing. -/
theorem map_update_eq_self (store : List Transaction) (t : Transaction)
    (h : ∀ s ∈ store, ¬ s.transaction_id = t.transaction_id) :
    store.map (fun s => if s.transaction_id = t.transaction_id then t else s) = store := by
  induction store with
  | nil => rfl
  | cons s rest ih =>
      rw [List.map_cons, if_neg (h s (List.mem_cons_self s rest)),
        ih (fun x hx => h x (List.mem_cons_of_mem s hx))]

/-- With distinct identifiers, saving a record whose identifier is present
replaces exactly the matching stored record and leaves all others as they
were. -/
theorem saveTransaction_eq_map (store : List Transaction) (t : Transaction)
    (hmem : t.transaction_id ∈ storeIds store) (hnd : (storeIds store).Nodup) :
    saveTransaction store t =
      store.map (fun s => if s.transaction_id = t.transaction_id then t else s) := by
  induction store with
  | nil => cases hmem
  | cons s rest ih =>
      have hnd2 : s.transaction_id ∉ storeIds rest ∧ (storeIds rest).Nodup := by
        simpa [storeIds, List.nodup_cons] using hnd
      by_cases hs : s.transaction_id = t.transaction_id
      · have hrest : ∀ x ∈ rest, ¬ x.transaction_id = t.transaction_id := by
          intro x hx hEq
          apply hnd2.1
          rw [hs, ← hEq]
          exact List.mem_map_of_mem Transaction.transaction_id hx
        rw [saveTransaction_cons, if_pos hs, List.map_cons, if_pos hs,
          map_update_eq_self rest t hrest]
      · have hmem2 : t.transaction_id ∈ storeIds rest := by
          rcases List.mem_cons.mp hmem with h1 | h1
          · exact absurd h1.symm hs
          · exact h1
        rw [saveTransaction_cons, if_neg hs, List.map_cons, if_neg hs, ih hmem2 hnd2.2]

/-- C3: after a successful confirmation of an unconfirmed transaction, the
store holds the updated record (receipt flag true, confirmed-total equal to
the original total) in place of the original, every record with a different
identifier is unchanged, and the re-fetched view shows exactly the store. -/
theorem confirm_success_state (w : World) (t : Transaction)
    (hflag : t.has_good_receipt = false)
    (hmem : t ∈ w.store)
    (hnd : (storeIds w.store).Nodup) :
    (handleReceiptConfirm w t ConfirmOutcome.saveOk).world.store =
      w.store.map
        (fun s => if s.transaction_id = t.transaction_id then updatedTransaction t else s) ∧
    (handleReceiptConfirm w t ConfirmOutcome.saveOk).world.view.transactions =
      (handleReceiptConfirm w t ConfirmOutcome.saveOk).world.store ∧
    (∀ s ∈ (handleReceiptConfirm w t ConfirmOutcome.saveOk).world.store,
        s.transaction_id = t.transaction_id →
          s.has_good_receipt = true ∧ s.good_receipt_total = t.total) ∧
    (∀ s ∈ w.store, ¬ s.transaction_id = t.transaction_id →
        s ∈ (handleReceiptConfirm w t ConfirmOutcome.saveOk).world.store) := by
  have hidmem : (updatedTransaction t).transaction_id ∈ storeIds w.store := by
    rw [updatedTransaction_id]
    exact List.mem_map_of_mem Transaction.transaction_id hmem
  have hsave := saveTransaction_eq_map w.store (updatedTransaction t) hidmem hnd
  rw [updatedTransaction_id] at hsave
  have hred : handleReceiptConfirm w t ConfirmOutcome.saveOk =
      { world := { store := saveTransaction w.store (updatedTransaction t),
                   view := { transactions := saveTransaction w.store (updatedTransaction t),
                             loading := false } },
        promptShown := true, errorLogged := false, errorAlertShown := false,
        successAlertShown := true, saveIssued := true } := by
    simp [handleReceiptConfirm, hflag, loadTransactions, getTransactions]
  refine ⟨?_, ?_, ?_, ?_⟩
  · rw [hred]
    exact hsave
  · rw [hred]
  · intro s hs hid
    rw [hred] at hs
    have hs2 : s ∈ w.store.map
        (fun x => if x.transaction_id = t.transaction_id then updatedTransaction t else x) := by
      rw [← hsave]
      exact hs
    obtain ⟨x, hx, hxe⟩ := List.mem_map.mp hs2
    by_cases hxid : x.transaction_id = t.transaction_id
    · rw [if_pos hxid] at hxe
      rw [← hxe]
      exact ⟨rfl, rfl⟩
    · rw [if_neg hxid] at hxe
      exact absurd (hxe ▸ hid) hxid
  · intro s hs hneq
    rw [hred]
    show s ∈ saveTransaction w.store (updatedTransaction t)
    rw [hsave]
    refine List.mem_map.mpr ⟨s, hs, ?_⟩
    rw [if_neg hneq]

/-- A fixed world used by the concrete confirmation witnesses: three stored
transactions with distinct identifiers, already loaded into the view. -/
def sampleWorld : World :=
  { store := [tx1, tx2, tx4],
    view := { transactions := [tx1, tx2, tx4], loading := false } }

/-- Witness for C3: confirming transaction TX1 with total 50000 yields a
stored record with the receipt flag set and confirmed-total 50000. -/
theorem confirm_success_state_witness :
    tx1.has_good_receipt = false ∧ tx1 ∈ sampleWorld.store ∧
    (storeIds sampleWorld.store).Nodup ∧
    ((handleReceiptConfirm sampleWorld tx1 ConfirmOutcome.saveOk).world.store =
        sampleWorld.store.map
          (fun s => if s.transaction_id = tx1.transaction_id then updatedTransaction tx1 else s) ∧
      (handleReceiptConfirm sampleWorld tx1 ConfirmOutcome.saveOk).world.view.transactions =
        (handleReceiptConfirm sampleWorld tx1 ConfirmOutcome.saveOk).world.store ∧
      (∀ s ∈ (handleReceiptConfirm sampleWorld tx1 ConfirmOutcome.saveOk).world.store,
          s.transaction_id = tx1.transaction_id →
            s.has_good_receipt = true ∧ s.good_receipt_total = tx1.total) ∧
      (∀ s ∈ sampleWorld.store, ¬ s.transaction_id = tx1.transaction_id →
          s ∈ (handleReceiptConfirm sampleWorld tx1 ConfirmOutcome.saveOk).world.store)) ∧
    (updatedTransaction tx1).has_good_receipt = true ∧
    (updatedTransaction tx1).good_receipt_total = 50000 :=
  ⟨by decide, by decide, by decide,
    confirm_success_state sampleWorld tx1 (by decide) (by decide) (by decide),
    by decide, by decide⟩

/-- C4: invoking the receipt-confirmation handler on an already-confirmed
transaction is a no-op, whatever the prompt outcome would have been: the
prompt is not shown, no save is issued, and neither store nor view state
changes. -/
theorem confirm_already_confirmed_noop (w : World) (t : Transaction) (o : ConfirmOutcome)
    (hflag : t.has_good_receipt = true) :
    handleReceiptConfirm w t o =
      { world := w, promptShown := false, errorLogged := false, errorAlertShown := false,
        successAlertShown := false, saveIssued := false } := by
  simp [handleReceiptConfirm, hflag]

/-- Witness for C4 on the already-confirmed sample transaction tx4. -/
theorem confirm_already_confirmed_noop_witness :
    tx4.has_good_receipt = true ∧
    handleReceiptConfirm sampleWorld tx4 ConfirmOutcome.saveOk =
      { world := sampleWorld, promptShown := false, errorLogged := false,
        errorAlertShown := false, successAlertShown := false, saveIssued := false } :=
  ⟨by decide, confirm_already_confirmed_noop sampleWorld tx4 ConfirmOutcome.saveOk (by decide)⟩

/-- C5 counterexample: when the storage read fails but the view already
holds a transaction, the load routine leaves that list in place — it is not
left empty, contrary to the claim as stated. -/
theorem load_failure_counterexample :
    ¬ ((loadTransactions { transactions := [tx1], loading := false }
          (Except.error ())).view.transactions = []) := by
  decide

/-- C5 (amended): when the storage read fails, the error is logged, the
transaction list held in local state is left unchanged (hence still empty
on the initial load, where the state starts empty), and the loading
indicator is cleared, with no error UI shown. -/
theorem load_failure_state (v : ViewState) :
    (loadTransactions v (Except.error ())).errorLogged = true ∧
    (loadTransactions v (Except.error ())).view.transactions = v.transactions ∧
    (loadTransactions v (Except.error ())).view.loading = false ∧
    (loadTransactions v (Except.error ())).errorAlertShown = false :=
  ⟨rfl, rfl, rfl, rfl⟩

/-- C6: when the save step of the confirmation flow fails, the error is
logged, the generic error alert is shown, and both the store and the view's
transaction list are exactly what they were before the confirmation. -/
theorem confirm_failure_state (w : World) (t : Transaction)
    (hflag : t.has_good_receipt = false) :
    (handleReceiptConfirm w t ConfirmOutcome.saveFail).world = w ∧
    (handleReceiptConfirm w t ConfirmOutcome.saveFail).world.view.transactions =
      w.view.transactions ∧
    (handleReceiptConfirm w t ConfirmOutcome.saveFail).errorLogged = true ∧
    (handleReceiptConfirm w t ConfirmOutcome.saveFail).errorAlertShown = true := by
  simp [handleReceiptConfirm, hflag]

/-- Witness for C6 on the unconfirmed sample transaction tx2. -/
theorem confirm_failure_state_witness :
    tx2.has_good_receipt = false ∧
    ((handleReceiptConfirm sampleWorld tx2 ConfirmOutcome.saveFail).world = sampleWorld ∧
      (handleReceiptConfirm sampleWorld tx2 ConfirmOutcome.saveFail).world.view.transactions =
        sampleWorld.view.transactions ∧
      (handleReceiptConfirm sampleWorld tx2 ConfirmOutcome.saveFail).errorLogged = true ∧
      (handleReceiptConfirm sampleWorld tx2 ConfirmOutcome.saveFail).errorAlertShown = true) :=
  ⟨by decide, confirm_failure_state sampleWorld tx2 (by decide)⟩

/-- C7: tapping a transaction row pushes the order-detail route, whose path
part is `/order-detail` and whose query string carries the transaction's
identifier as the `transactionId` parameter. -/
theorem tap_pushes_detail_route (t : Transaction) :
    handleTransactionTap t =
      NavAction.push (String.append "/order-detail?transactionId=" t.transaction_id) ∧
    routePath (String.append "/order-detail?transactionId=" t.transaction_id) = "/order-detail" ∧
    routeQuery (String.append "/order-detail?transactionId=" t.transaction_id) =
      String.append "transactionId=" t.transaction_id :=
  ⟨rfl, rfl, rfl⟩

/-- C8: across every step of the view's behaviour, the store changes only
when the confirmation flow runs on an unconfirmed transaction and the user
confirms with a successful save; exactly there the written record has its
receipt flag set to true and its total copied into the confirmed-total
field.  Loads, taps, cancelled prompts, failing saves, and confirmations of
already-confirmed transactions never touch a stored receipt flag or
confirmed-total. -/
theorem receipt_flag_only_by_confirm (w : World) (e : Event) :
    (step w e).store = w.store ∨
    ∃ t, e = Event.confirm t ConfirmOutcome.saveOk ∧ t.has_good_receipt = false ∧
      (step w e).store = saveTransaction w.store (updatedTransaction t) ∧
      (updatedTransaction t).has_good_receipt = true ∧
      (updatedTransaction t).good_receipt_total = t.total := by
  cases e with
  | load ok => cases ok <;> exact Or.inl rfl
  | tap t => exact Or.inl rfl
  | confirm t o =>
      by_cases hflag : t.has_good_receipt = true
      · left
        simp [step, handleReceiptConfirm, hflag]
      · cases o with
        | cancel =>
            left
            simp [step, handleReceiptConfirm, hflag]
        | saveFail =>
            left
            simp [step, handleReceiptConfirm, hflag]
        | saveOk =>
            right
            refine ⟨t, rfl, by simpa using hflag, ?_, rfl, rfl⟩
            simp [step, handleReceiptConfirm, hflag, loadTransactions, getTransactions]

/-- C9: the record the confirmation flow writes to storage is the original
transaction with only the receipt flag and the confirmed-total changed —
identifier, date, total, items, and loan identifier are untouched. -/
theorem updated_record_frame (t : Transaction) (w : World)
    (hflag : t.has_good_receipt = false) :
    (handleReceiptConfirm w t ConfirmOutcome.saveOk).world.store =
      saveTransaction w.store (updatedTransaction t) ∧
    (updatedTransaction t).transaction_id = t.transaction_id ∧
    (updatedTransaction t).date = t.date ∧
    (updatedTransaction t).total = t.total ∧
    (updatedTransaction t).items = t.items ∧
    (updatedTransaction t).loan_id = t.loan_id ∧
    (updatedTransaction t).has_good_receipt = true ∧
    (updatedTransaction t).good_receipt_total = t.total := by
  refine ⟨?_, rfl, rfl, rfl, rfl, rfl, rfl, rfl⟩
  simp [handleReceiptConfirm, hflag, loadTransactions, getTransactions]

/-- Witness for C9 on the unconfirmed sample transaction tx1. -/
theorem updated_record_frame_witness :
    tx1.has_good_receipt = false ∧
    ((handleReceiptConfirm sampleWorld tx1 ConfirmOutcome.saveOk).world.store =
        saveTransaction sampleWorld.store (updatedTransaction tx1) ∧
      (updatedTransaction tx1).transaction_id = tx1.transaction_id ∧
      (updatedTransaction tx1).date = tx1.date ∧
      (updatedTransaction tx1).total = tx1.total ∧
      (updatedTransaction tx1).items = tx1.items ∧
      (updatedTransaction tx1).loan_id = tx1.loan_id ∧
      (updatedTransaction tx1).has_good_receipt = true ∧
      (updatedTransaction tx1).good_receipt_total = tx1.total) :=
  ⟨by decide, updated_record_frame tx1 sampleWorld (by decide)⟩

end WarungHistory
